import Mathlib

/-!
Verification of the Task Prioritization & Claiming Engine.

Shallow embedding of the backend core (src/main.py, src/schemas.py):
task documents are records with optional fields (a `none` field models an
absent key of the stored document), the task collection is a list of
documents in the store's iteration order, and the message collection is a
list of messages in insertion order.  Python's `sorted(pool, key, reverse=True)`
is a stable descending sort; it is embedded as a stable insertion sort
`sortedDesc` that keeps earlier elements first on equal keys.
-/

namespace CoFounderOS

/-- A stored task document.  `_id` models the ObjectId as its 24-hex-char
string form; every other field is optional (`none` = key absent), matching
the dictionary access `t.get(...)` in the source. -/
structure Doc where
  _id : String
  title : Option String := none
  description : Option String := none
  domain : Option String := none
  impact : Option Int := none
  effort : Option Int := none
  urgency : Option Int := none
  status : Option String := none
  assignee : Option String := none
deriving DecidableEq, Repr

/-- A stored chat message (collection "message"). -/
structure Msg where
  sender : String
  text : String
  user_email : Option String := none
  topic : Option String := none
deriving DecidableEq, Repr

/-- The store: the "task" collection and the "message" collection, each in
the store's iteration order. -/
structure Store where
  tasks : List Doc
  messages : List Msg
deriving DecidableEq, Repr

/-- The four workflow statuses admitted by the Task schema
(schemas.py, `status: Literal["backlog", "in_progress", "done", "blocked"]`). -/
def statusEnum : List String := ["backlog", "in_progress", "done", "blocked"]

/-- Embedding of `score_task` from main.py:
`impact = int(t.get("impact", 5)); effort = int(t.get("effort", 3));
urgency = int(t.get("urgency", 5)); return (impact * 2) + urgency - effort`. -/
def score_task (t : Doc) : Int :=
  let impact := t.impact.getD 5
  let effort := t.effort.getD 3
  let urgency := t.urgency.getD 5
  impact * 2 + urgency - effort

/-- Python truthiness of the optional query parameter `user_email`
(`None` and `""` are falsy). -/
def truthy : Option String → Bool
  | none => false
  | some s => decide (s ≠ "")

/-- Python truthiness test `not t.get("assignee")`: true when the assignee
field is absent or the empty string. -/
def assigneeEmpty (t : Doc) : Bool :=
  match t.assignee with
  | none => true
  | some s => decide (s = "")

/-- Embedding of `pref_score` from next_task in main.py:
`s = score_task(t); if user_email and t.get("assignee") == user_email: s += 5;
if not t.get("assignee"): s += 2; return s`. -/
def pref_score (user_email : Option String) (t : Doc) : Int :=
  let s0 := score_task t
  let s1 := if truthy user_email ∧ t.assignee = user_email then s0 + 5 else s0
  if assigneeEmpty t then s1 + 2 else s1

/-- Stable insert for a descending sort by `key`: the new element `x` goes
before the first element with a strictly smaller key; on equal keys `x`
(which comes from earlier in the original list, see `sortedDesc`) stays
first.  This embeds the ordering behaviour of Python's stable
`sorted(..., key=key, reverse=True)`. -/
def insertDesc (key : α → Int) (x : α) : List α → List α
  | [] => [x]
  | y :: ys => if key y ≤ key x then x :: y :: ys else y :: insertDesc key x ys

/-- Stable descending sort by `key`, embedding
`sorted(l, key=key, reverse=True)` (Python sorts are stable: elements with
equal keys keep their original relative order, also with `reverse=True`). -/
def sortedDesc (key : α → Int) : List α → List α
  | [] => []
  | x :: xs => insertDesc key x (sortedDesc key xs)

/-- Embedding of `get_documents("task", \x7b"status": s\x7d)`: the documents whose status field
equals `s`, in store order. -/
def tasksWithStatus (s : String) (tasks : List Doc) : List Doc :=
  tasks.filter (fun t => t.status = some s)

/-- The candidate pool of next_task: backlog tasks if any, else blocked
tasks (main.py lines 141-148). -/
def poolOf (tasks : List Doc) : List Doc :=
  let backlog := tasksWithStatus "backlog" tasks
  if backlog = [] then tasksWithStatus "blocked" tasks else backlog

/-- Embedding of `sorted(pool, key=pref_score, reverse=True)[0]` — the selected candidate
(`none` when the pool is empty). -/
def bestOf (user_email : Option String) (tasks : List Doc) : Option Doc :=
  (sortedDesc (pref_score user_email) (poolOf tasks)).head?

/-- Embedding of `update_one(filter, assignments)` on a collection: applies `f` to the
first document matching `p` and reports the matched count (0 or 1). -/
def updateFirst (p : Doc → Bool) (f : Doc → Doc) : List Doc → List Doc × Nat
  | [] => ([], 0)
  | x :: xs =>
    if p x then (f x :: xs, 1)
    else
      let r := updateFirst p f xs
      (x :: r.1, r.2)

/-- The task part of a next_task response: the serialized document (with
any auto-assignment applied) together with the attached "score" field. -/
structure TaskOut where
  doc : Doc
  score : Int
deriving DecidableEq, Repr

/-- The body of a next_task response: either a task or an informational
message. -/
structure NextOut where
  task : Option TaskOut
  message : Option String
deriving DecidableEq, Repr

/-- Embedding of `next_task` from main.py (GET /api/tasks/next): chooses the pool,
ranks by `pref_score` (stable descending sort, first element), optionally
auto-assigns (`status = "in_progress"`, `assignee = user_email`) via a
single `update_one` keyed by the selected document's `_id`, and returns the
serialized task with its base score attached.  Returns the response
together with the task collection after the call. -/
def next_task (user_email : Option String) (tasks : List Doc) :
    NextOut × List Doc :=
  match bestOf user_email tasks with
  | none =>
      ({ task := none,
         message := some "No tasks available. Create one to get started." }, tasks)
  | some best =>
      if truthy user_email ∧ best.status = some "backlog" then
        ({ task := some
             { doc := { best with status := some "in_progress",
                                  assignee := user_email },
               score := score_task best },
           message := none },
         (updateFirst (fun d => d._id == best._id)
           (fun d => { d with status := some "in_progress",
                              assignee := user_email }) tasks).1)
      else
        ({ task := some { doc := best, score := score_task best },
           message := none }, tasks)

/-- Result of POST /api/tasks/{task_id}/status. -/
inductive StatusResult where
  | ok
  | invalidId
  | notFound
deriving DecidableEq, Repr

/-- Hexadecimal digits accepted in an ObjectId string. -/
def hexDigits : List Char := "0123456789abcdefABCDEF".data

/-- Embedding of the id parse: `ObjectId(task_id)` succeeds on a string exactly when it is a
24-character hexadecimal string. -/
def isValidObjectId (s : String) : Bool :=
  s.data.length == 24 && s.data.all (fun c => hexDigits.contains c)

/-- Embedding of `update_task_status` from main.py: parse the id (400 Invalid task id on
failure), `update_one({"_id": oid}, {"$set": {"status": payload.status}})`,
404 Task not found when nothing matched, else ok.  Returns the result
together with the task collection after the call. -/
def update_task_status (task_id : String) (status : String)
    (tasks : List Doc) : StatusResult × List Doc :=
  if isValidObjectId task_id then
    let r := updateFirst (fun d => d._id == task_id)
      (fun d => { d with status := some status }) tasks
    if r.2 = 0 then (.notFound, r.1) else (.ok, r.1)
  else
    (.invalidId, tasks)

/-- Payload of POST /api/messages after validation (MessageCreate in
main.py): `sender`/`text` required, `user_email` optional, `topic` optional
with pydantic default "general" (a client may still send an explicit null,
giving `none`). -/
structure MessagePayload where
  sender : String
  text : String
  user_email : Option String := none
  topic : Option String := some "general"
deriving DecidableEq, Repr

/-- Python rendering of `t.get("title")` inside an f-string: an absent
title prints as "None". -/
def pyShowOptStr : Option String → String
  | none => "None"
  | some s => s

/-- One bullet of the assistant reply:
`f"- {t.get('title')} (score {score_task(t)}) — domain: {t.get('domain', 'general')}"`. -/
def bulletLine (t : Doc) : String :=
  "- " ++ pyShowOptStr t.title ++ " (score " ++ toString (score_task t) ++
    ") — domain: " ++ t.domain.getD "general"

/-- Fixed introductory sentence of the composed reply (ends with the
newline embedded in the source string literal). -/
def replyIntro : String :=
  "Basierend auf deinem aktuellen Backlog würde ich diese Schritte priorisieren:\n"

/-- Fixed closing instruction sentence of the composed reply. -/
def replyClosing : String :=
  "Nutze den Button \x27Ich bin frei\x27, um dir direkt den nächsten Schritt zuzuweisen."

/-- Fixed fallback sentence used when no tasks exist (the two adjacent
Python string literals concatenated). -/
def replyFallback : String :=
  "Ich sehe noch keine Aufgaben. Erstelle 3-5 klare, wirkungsstarke Tasks mit Impact, Effort und Urgency – dann priorisiere ich sie automatisch."

/-- Python's `"\n".join(l)`. -/
def joinLines : List String → String
  | [] => ""
  | [x] => x
  | x :: xs => x ++ "\n" ++ joinLines xs

/-- The reply text composed by create_message from the current tasks:
sort all tasks by score descending, serialize the top 3, and fill the
fixed template; fall back to `replyFallback` when no task exists. -/
def composeReplyText (tasks : List Doc) : String :=
  let top := (sortedDesc score_task tasks).take 3
  if top = [] then replyFallback
  else
    replyIntro ++ joinLines (top.map bulletLine) ++ "\n\n" ++ replyClosing

/-- Embedding of `payload.topic or "general"`: Python `or` replaces a falsy topic
(`None` or `""`) with "general". -/
def topicOrGeneral : Option String → String
  | none => "general"
  | some t => if t = "" then "general" else t

/-- Embedding of `create_message` from main.py (POST /api/messages): store the submitted
message, compose the assistant reply from the current tasks, and store the
ai message with the same user_email and the defaulted topic.  Returns the
store after the call. -/
def create_message (p : MessagePayload) (s : Store) : Store :=
  { tasks := s.tasks,
    messages :=
      (s.messages ++
        [{ sender := p.sender, text := p.text,
           user_email := p.user_email, topic := p.topic }]) ++
      [{ sender := "ai", text := composeReplyText s.tasks,
         user_email := p.user_email, topic := some (topicOrGeneral p.topic) }] }

/-! ### Lemmas about the stable descending sort -/

theorem mem_insertDesc {key : α → Int} {x a : α} {l : List α} :
    a ∈ insertDesc key x l ↔ a = x ∨ a ∈ l := by
  induction l with
  | nil => simp [insertDesc]
  | cons y ys ih =>
    simp only [insertDesc]
    split
    · simp [List.mem_cons]
    · simp only [List.mem_cons, ih]
      tauto

theorem mem_sortedDesc {key : α → Int} {a : α} {l : List α} :
    a ∈ sortedDesc key l ↔ a ∈ l := by
  induction l with
  | nil => simp [sortedDesc]
  | cons x xs ih => simp [sortedDesc, mem_insertDesc, ih]

theorem length_insertDesc {key : α → Int} {x : α} {l : List α} :
    (insertDesc key x l).length = l.length + 1 := by
  induction l with
  | nil => rfl
  | cons y ys ih =>
    simp only [insertDesc]
    split
    · simp
    · simp [ih]

theorem length_sortedDesc {key : α → Int} {l : List α} :
    (sortedDesc key l).length = l.length := by
  induction l with
  | nil => rfl
  | cons x xs ih => simp [sortedDesc, length_insertDesc, ih]

/-- The head of the stable descending sort is the first element of the
original list attaining the maximal key: it has a maximal key, and every
element strictly before it in the original order has a strictly smaller
key (Python's stable `sorted(..., reverse=True)` keeps the earlier of two
equal-key elements first). -/
theorem sortedDesc_head_firstMax {key : α → Int} {l : List α} (h : l ≠ []) :
    ∃ b l1 l2, (sortedDesc key l).head? = some b ∧ l = l1 ++ b :: l2 ∧
      (∀ t ∈ l1, key t < key b) ∧ (∀ t ∈ l, key t ≤ key b) := by
  induction l with
  | nil => exact absurd rfl h
  | cons x xs ih =>
    by_cases hxs : xs = []
    · subst hxs
      exact ⟨x, [], [], rfl, rfl, by simp, by simp⟩
    · obtain ⟨b, l1, l2, hb, hdec, hlt, hle⟩ := ih hxs
      cases hsort : sortedDesc key xs with
      | nil => rw [hsort] at hb; simp at hb
      | cons b' rest =>
        rw [hsort] at hb
        simp only [List.head?_cons, Option.some.injEq] at hb
        rw [hb] at hsort
        simp only [sortedDesc]
        rw [hsort]
        simp only [insertDesc]
        by_cases hcmp : key b ≤ key x
        · rw [if_pos hcmp]
          refine ⟨x, [], xs, ⟨rfl, rfl, by simp, ?_⟩⟩
          intro t ht
          rcases List.mem_cons.1 ht with rfl | ht
          · exact le_refl _
          · exact le_trans (hle t ht) hcmp
        · rw [if_neg hcmp]
          refine ⟨b, x :: l1, l2, ⟨rfl, by rw [List.cons_append, ← hdec], ?_, ?_⟩⟩
          · intro t ht
            rcases List.mem_cons.1 ht with rfl | ht
            · exact lt_of_not_le hcmp
            · exact hlt t ht
          · intro t ht
            rcases List.mem_cons.1 ht with rfl | ht
            · exact le_of_lt (lt_of_not_le hcmp)
            · exact hle t ht

theorem pairwise_insertDesc {key : α → Int} {x : α} {l : List α}
    (h : l.Pairwise (fun a b => key b ≤ key a)) :
    (insertDesc key x l).Pairwise (fun a b => key b ≤ key a) := by
  induction l with
  | nil => simp [insertDesc]
  | cons y ys ih =>
    rw [List.pairwise_cons] at h
    obtain ⟨hy, hys⟩ := h
    simp only [insertDesc]
    split
    · rename_i hle
      refine List.pairwise_cons.2 ⟨?_, List.pairwise_cons.2 ⟨hy, hys⟩⟩
      intro z hz
      rcases List.mem_cons.1 hz with rfl | hz
      · exact hle
      · exact le_trans (hy z hz) hle
    · rename_i hgt
      refine List.pairwise_cons.2 ⟨?_, ih hys⟩
      intro z hz
      rcases mem_insertDesc.1 hz with rfl | hz
      · exact le_of_lt (lt_of_not_le hgt)
      · exact hy z hz

theorem pairwise_sortedDesc {key : α → Int} {l : List α} :
    (sortedDesc key l).Pairwise (fun a b => key b ≤ key a) := by
  induction l with
  | nil => simp [sortedDesc]
  | cons x xs ih => exact pairwise_insertDesc ih

/-! ### Lemmas about the conditional single-document update -/

theorem updateFirst_of_forall_false {p : Doc → Bool} {f : Doc → Doc} :
    ∀ {l : List Doc}, (∀ d ∈ l, p d = false) → updateFirst p f l = (l, 0) := by
  intro l
  induction l with
  | nil => intro _; rfl
  | cons x xs ih =>
    intro h
    have hx := h x (List.mem_cons_self x xs)
    simp only [updateFirst, hx]
    simp [ih (fun d hd => h d (List.mem_cons_of_mem x hd))]

theorem updateFirst_decomp {p : Doc → Bool} {f : Doc → Doc} {l : List Doc}
    {d : Doc} (hd : d ∈ l) (hp : p d = true) :
    ∃ l1 e l2, l = l1 ++ e :: l2 ∧ p e = true ∧ (∀ x ∈ l1, p x = false) ∧
      updateFirst p f l = (l1 ++ f e :: l2, 1) := by
  induction l with
  | nil => cases hd
  | cons x xs ih =>
    by_cases hx : p x = true
    · exact ⟨[], x, xs, rfl, hx, by simp, by simp [updateFirst, hx]⟩
    · have hx' : p x = false := by simpa using hx
      have hdxs : d ∈ xs := by
        rcases List.mem_cons.1 hd with rfl | h
        · rw [hp] at hx'; cases hx'
        · exact h
      obtain ⟨l1, e, l2, hdec, hpe, hl1, hupd⟩ := ih hdxs
      refine ⟨x :: l1, e, l2, by rw [List.cons_append, ← hdec], hpe, ?_, ?_⟩
      · intro y hy
        rcases List.mem_cons.1 hy with rfl | hy
        · exact hx'
        · exact hl1 y hy
      · simp [updateFirst, hx', hupd]

theorem updateFirst_first_match {p : Doc → Bool} {f : Doc → Doc} :
    ∀ {l1 : List Doc} {d : Doc} {l2 : List Doc},
      (∀ e ∈ l1, p e = false) → p d = true →
      updateFirst p f (l1 ++ d :: l2) = (l1 ++ f d :: l2, 1) := by
  intro l1
  induction l1 with
  | nil =>
    intro d l2 _ hp
    simp [updateFirst, hp]
  | cons x xs ih =>
    intro d l2 hl1 hp
    have hx : p x = false := hl1 x (List.mem_cons_self x xs)
    simp [updateFirst, hx,
      ih (fun e he => hl1 e (List.mem_cons_of_mem x he)) hp]

/-! ### Small facts about the selection pool -/

theorem poolOf_eq (tasks : List Doc) :
    poolOf tasks =
      if tasksWithStatus "backlog" tasks = [] then tasksWithStatus "blocked" tasks
      else tasksWithStatus "backlog" tasks := rfl

theorem poolOf_subset {tasks : List Doc} : ∀ t ∈ poolOf tasks, t ∈ tasks := by
  intro t ht
  rw [poolOf_eq] at ht
  split at ht <;> exact (List.mem_filter.1 ht).1

theorem bestOf_mem {user : Option String} {tasks : List Doc} {b : Doc}
    (h : bestOf user tasks = some b) : b ∈ poolOf tasks := by
  have hb : b ∈ sortedDesc (pref_score user) (poolOf tasks) := by
    unfold bestOf at h
    cases hs : sortedDesc (pref_score user) (poolOf tasks) with
    | nil => rw [hs] at h; cases h
    | cons c rest =>
      rw [hs] at h
      simp only [List.head?_cons, Option.some.injEq] at h
      rw [← h]
      exact List.mem_cons_self c rest
  exact mem_sortedDesc.1 hb

theorem bestOf_isSome {user : Option String} {tasks : List Doc}
    (h : poolOf tasks ≠ []) : ∃ b, bestOf user tasks = some b := by
  unfold bestOf
  cases hs : sortedDesc (pref_score user) (poolOf tasks) with
  | nil =>
    exfalso
    have := @length_sortedDesc Doc (pref_score user) (poolOf tasks)
    rw [hs] at this
    exact h (List.length_eq_zero.1 this.symm)
  | cons c rest => exact ⟨c, rfl⟩

/-! ### Concrete example documents for witnesses and counterexamples -/

/-- Backlog task with base score 10 (4*2 + 5 - 3) and no assignee:
task A of the spec scenario. -/
def taskA : Doc :=
  { _id := "aaaaaaaaaaaaaaaaaaaaaaaa", title := some "A",
    impact := some 4, effort := some 3, urgency := some 5,
    status := some "backlog", assignee := none }

/-- Backlog task with base score 10 assigned to "u@x": task B of the spec
scenario. -/
def taskB : Doc :=
  { _id := "bbbbbbbbbbbbbbbbbbbbbbbb", title := some "B",
    impact := some 4, effort := some 3, urgency := some 5,
    status := some "backlog", assignee := some "u@x" }

/-- A blocked task. -/
def taskC : Doc :=
  { _id := "cccccccccccccccccccccccc", title := some "C",
    impact := some 9, effort := some 2, urgency := some 8,
    status := some "blocked", assignee := none }

/-- An unassigned backlog task with the same base score as `taskA`
(tie scenario). -/
def taskD : Doc :=
  { _id := "dddddddddddddddddddddddd", title := some "D",
    impact := some 4, effort := some 3, urgency := some 5,
    status := some "backlog", assignee := none }

/-! ### Claim theorems -/

/-- C1: for every task record, `score_task` equals impact*2 + urgency -
effort with the defaults impact=5, effort=3, urgency=5 substituted for
each absent field; being a total function of the record it is pure,
deterministic and never fails (in particular on records whose present
fields lie in [1,10]). -/
theorem score_task_formula (t : Doc) :
    score_task t =
      (t.impact.getD 5) * 2 + (t.urgency.getD 5) - (t.effort.getD 3) := rfl

/-- C2: the preference score equals the base score plus 5 exactly when a
caller identity is given and the assignee equals it, plus 2 exactly when
the assignee is empty; the two bonuses never both apply; and on the spec
scenario (backlog tasks A with score 10 and no assignee, B with score 10
assigned to caller "u@x"), preference(A)=12, preference(B)=15 and B is the
selected task. -/
theorem pref_score_spec :
    (∀ (user : Option String) (t : Doc), pref_score user t =
        score_task t + (if truthy user ∧ t.assignee = user then 5 else 0) +
          (if assigneeEmpty t then 2 else 0)) ∧
    (∀ (user : Option String) (t : Doc),
        (truthy user && decide (t.assignee = user) && assigneeEmpty t) = false) ∧
    pref_score (some "u@x") taskA = 12 ∧
    pref_score (some "u@x") taskB = 15 ∧
    (next_task (some "u@x") [taskA, taskB]).1.task.map (fun o => o.doc._id) =
      some taskB._id := by
  refine ⟨?_, ?_, by decide, by decide, by decide⟩
  · intro user t
    by_cases h1 : truthy user ∧ t.assignee = user
    · by_cases h2 : assigneeEmpty t = true
      · simp [pref_score, h1, h2]
      · simp [pref_score, h1, h2]
    · by_cases h2 : assigneeEmpty t = true
      · simp [pref_score, h1, h2]
      · simp [pref_score, h1, h2]
  · intro user t
    cases user with
    | none => simp [truthy]
    | some s =>
      by_cases hs : s = ""
      · simp [truthy, hs]
      · by_cases ha : t.assignee = some s
        · simp [assigneeEmpty, ha, hs]
        · simp [ha]

/-- C10: the "score" field attached to the task returned by next_task is
the base score `score_task` of the selected document, not its preference
score. -/
theorem next_task_attaches_base_score (user : Option String)
    (tasks : List Doc) (b : Doc) (h : bestOf user tasks = some b) :
    ∃ out, (next_task user tasks).1.task = some out ∧
      out.score = score_task b := by
  simp only [next_task, h]
  by_cases hc : truthy user ∧ b.status = some "backlog"
  · rw [if_pos hc]; exact ⟨_, rfl, rfl⟩
  · rw [if_neg hc]; exact ⟨_, rfl, rfl⟩

/-- C10 witness: on the spec scenario the +5 affinity bonus determines the
selection of task B, yet the attached score is B's base score 10. -/
theorem next_task_attaches_base_score_witness :
    ∃ out, (next_task (some "u@x") [taskA, taskB]).1.task = some out ∧
      out.score = score_task taskB :=
  next_task_attaches_base_score (some "u@x") [taskA, taskB] taskB (by decide)

/-- C5: next_task selects a candidate with the maximum preference score,
and among equal maxima the one that comes first in the store's returned
order: the pool decomposes around the selected document so that everything
before it has a strictly smaller preference score. -/
theorem next_task_selects_first_max (user : Option String)
    (tasks : List Doc) (h : poolOf tasks ≠ []) :
    ∃ b l1 l2, bestOf user tasks = some b ∧
      poolOf tasks = l1 ++ b :: l2 ∧
      (∀ t ∈ l1, pref_score user t < pref_score user b) ∧
      (∀ t ∈ poolOf tasks, pref_score user t ≤ pref_score user b) :=
  sortedDesc_head_firstMax h

/-- C5 witness: on a pool of two tied unassigned backlog tasks the
decomposition exists; in particular the selection is defined. -/
theorem next_task_selects_first_max_witness :
    ∃ b l1 l2, bestOf none [taskA, taskD] = some b ∧
      poolOf [taskA, taskD] = l1 ++ b :: l2 ∧
      (∀ t ∈ l1, pref_score none t < pref_score none b) ∧
      (∀ t ∈ poolOf [taskA, taskD],
        pref_score none t ≤ pref_score none b) :=
  next_task_selects_first_max none [taskA, taskD] (by decide)

/-- C3: next_task draws from the backlog pool whenever it is non-empty
(the returned task then stems from a backlog document and is never
blocked), falls back to the blocked pool only when no backlog task exists,
and when both pools are empty returns no task with the message
"No tasks available. Create one to get started." and an unchanged store. -/
theorem next_task_pool_choice (user : Option String) (tasks : List Doc) :
    (tasksWithStatus "backlog" tasks ≠ [] →
      ∃ out, (next_task user tasks).1.task = some out ∧
        (∃ t ∈ tasksWithStatus "backlog" tasks,
          out.doc = t ∨
            out.doc = { t with status := some "in_progress", assignee := user }) ∧
        (out.doc.status = some "backlog" ∨
          out.doc.status = some "in_progress")) ∧
    (tasksWithStatus "backlog" tasks = [] →
      tasksWithStatus "blocked" tasks ≠ [] →
      ∃ out, (next_task user tasks).1.task = some out ∧
        out.doc ∈ tasksWithStatus "blocked" tasks ∧
        out.doc.status = some "blocked") ∧
    (tasksWithStatus "backlog" tasks = [] →
      tasksWithStatus "blocked" tasks = [] →
      (next_task user tasks).1 =
        { task := none,
          message := some "No tasks available. Create one to get started." } ∧
      (next_task user tasks).2 = tasks) := by
  refine ⟨?_, ?_, ?_⟩
  · intro hbl
    have hpool : poolOf tasks = tasksWithStatus "backlog" tasks := by
      rw [poolOf_eq, if_neg hbl]
    obtain ⟨b, hb⟩ := @bestOf_isSome user tasks
      (by rw [hpool]; exact hbl)
    have hmem : b ∈ tasksWithStatus "backlog" tasks := hpool ▸ bestOf_mem hb
    have hstat : b.status = some "backlog" := by
      have := (List.mem_filter.1 hmem).2
      exact of_decide_eq_true this
    simp only [next_task, hb]
    by_cases hc : truthy user ∧ b.status = some "backlog"
    · rw [if_pos hc]
      exact ⟨_, rfl, ⟨b, hmem, Or.inr rfl⟩, Or.inr rfl⟩
    · rw [if_neg hc]
      exact ⟨_, rfl, ⟨b, hmem, Or.inl rfl⟩, Or.inl hstat⟩
  · intro hbl hbk
    have hpool : poolOf tasks = tasksWithStatus "blocked" tasks := by
      rw [poolOf_eq, if_pos hbl]
    obtain ⟨b, hb⟩ := @bestOf_isSome user tasks
      (by rw [hpool]; exact hbk)
    have hmem : b ∈ tasksWithStatus "blocked" tasks := hpool ▸ bestOf_mem hb
    have hstat : b.status = some "blocked" := by
      have := (List.mem_filter.1 hmem).2
      exact of_decide_eq_true this
    have hc : ¬(truthy user ∧ b.status = some "backlog") := by
      rintro ⟨-, h⟩
      rw [hstat] at h
      exact absurd h (by decide)
    simp only [next_task, hb]
    rw [if_neg hc]
    exact ⟨_, rfl, hmem, hstat⟩
  · intro hbl hbk
    have hpool : poolOf tasks = [] := by
      rw [poolOf_eq, if_pos hbl]; exact hbk
    have hb : bestOf user tasks = none := by
      unfold bestOf; rw [hpool]; rfl
    simp [next_task, hb]

/-- C3 witness: the three branches at concrete stores — a backlog store
yields a backlog-derived task, a store with only a blocked task surfaces
it, and an empty store yields no task with the fixed message. -/
theorem next_task_pool_choice_witness :
    (∃ out, (next_task none [taskC, taskA]).1.task = some out ∧
      (∃ t ∈ tasksWithStatus "backlog" [taskC, taskA],
        out.doc = t ∨
          out.doc = { t with status := some "in_progress", assignee := none }) ∧
      (out.doc.status = some "backlog" ∨
        out.doc.status = some "in_progress")) ∧
    (∃ out, (next_task none [taskC]).1.task = some out ∧
      out.doc ∈ tasksWithStatus "blocked" [taskC] ∧
      out.doc.status = some "blocked") ∧
    ((next_task none ([] : List Doc)).1 =
      { task := none,
        message := some "No tasks available. Create one to get started." } ∧
     (next_task none ([] : List Doc)).2 = ([] : List Doc)) :=
  ⟨(next_task_pool_choice none [taskC, taskA]).1 (by decide),
   (next_task_pool_choice none [taskC]).2.1 (by decide) (by decide),
   (next_task_pool_choice none []).2.2 rfl rfl⟩

/-- C4: on a store with unique document ids, next_task mutates the task
collection if and only if a caller identity is given (truthy) and the
selected task has status backlog; in that case the store change is a
single update keyed by the selected id setting status=in_progress and
assignee=caller, every other document and field is untouched, and the
returned task carries the new status and assignee. -/
theorem next_task_frame (user : Option String) (tasks : List Doc)
    (hids : (tasks.map Doc._id).Nodup) :
    ((next_task user tasks).2 ≠ tasks ↔
      (truthy user = true ∧
        ∃ b, bestOf user tasks = some b ∧ b.status = some "backlog")) ∧
    (∀ b, bestOf user tasks = some b → truthy user = true →
      b.status = some "backlog" →
      ∃ l1 l2, tasks = l1 ++ b :: l2 ∧
        (next_task user tasks).2 =
          l1 ++ { b with status := some "in_progress", assignee := user } :: l2 ∧
        (next_task user tasks).1.task =
          some { doc := { b with status := some "in_progress",
                                 assignee := user },
                 score := score_task b }) := by
  cases hbest : bestOf user tasks with
  | none =>
    constructor
    · simp only [next_task, hbest]
      constructor
      · intro h; exact absurd rfl h
      · rintro ⟨-, b, hb, -⟩; cases hb
    · intro b hb; cases hb
  | some b =>
    have hbmem : b ∈ tasks := poolOf_subset _ (bestOf_mem hbest)
    by_cases hc : truthy user ∧ b.status = some "backlog"
    · obtain ⟨l1, e, l2, hdec, hpe, hl1, hupd⟩ :=
        updateFirst_decomp (p := fun d => d._id == b._id)
          (f := fun d => { d with status := some "in_progress",
                                  assignee := user })
          (l := tasks) (d := b) hbmem (by simp)
      have hemem : e ∈ tasks := by
        rw [hdec]
        exact List.mem_append_right _ (List.mem_cons_self e l2)
      have heb : e = b :=
        List.inj_on_of_nodup_map hids hemem hbmem (by simpa using hpe)
      rw [heb] at hdec hupd
      have hstore : (next_task user tasks).2 =
          l1 ++ { b with status := some "in_progress", assignee := user } :: l2 := by
        simp only [next_task, hbest]
        rw [if_pos hc, hupd]
      have hne : (next_task user tasks).2 ≠ tasks := by
        rw [hstore, hdec]
        intro heq
        have h2 := List.append_cancel_left heq
        injection h2 with h3 h4
        have h5 := congrArg Doc.status h3
        simp only at h5
        rw [hc.2] at h5
        exact absurd h5 (by decide)
      refine ⟨iff_of_true hne ⟨hc.1, b, rfl, hc.2⟩, ?_⟩
      intro b' hb' htru hstat
      injection hb' with hbb
      subst hbb
      refine ⟨l1, l2, hdec, hstore, ?_⟩
      simp only [next_task, hbest]
      rw [if_pos hc]
    · have hstore : (next_task user tasks).2 = tasks := by
        simp only [next_task, hbest]
        rw [if_neg hc]
      constructor
      · rw [hstore]
        constructor
        · intro h; exact absurd rfl h
        · rintro ⟨htru, b', hb', hstat⟩
          injection hb' with hbb
          subst hbb
          exact (hc ⟨htru, hstat⟩).elim
      · intro b' hb' htru hstat
        injection hb' with hbb
        subst hbb
        exact (hc ⟨htru, hstat⟩).elim

/-- C4 witness: with caller "u@x" and a one-task backlog store, the store
after the call shows the claimed single update and the returned task shows
the new status and assignee. -/
theorem next_task_frame_witness :
    ∃ l1 l2, [taskA] = l1 ++ taskA :: l2 ∧
      (next_task (some "u@x") [taskA]).2 =
        l1 ++ { taskA with status := some "in_progress",
                           assignee := some "u@x" } :: l2 ∧
      (next_task (some "u@x") [taskA]).1.task =
        some { doc := { taskA with status := some "in_progress",
                                   assignee := some "u@x" },
               score := score_task taskA } :=
  (next_task_frame (some "u@x") [taskA] (by decide)).2 taskA (by decide)
    (by decide) (by decide)

/-- C6: update_task_status returns InvalidId without writing when the id
does not parse as an ObjectId; returns NotFound without writing when the
id is well-formed but matches no stored task; and on success overwrites
exactly the status field of the first task with that id, leaving its other
fields and every other task untouched. -/
theorem update_task_status_spec (task_id status : String)
    (tasks : List Doc) :
    (isValidObjectId task_id = false →
      update_task_status task_id status tasks = (.invalidId, tasks)) ∧
    (isValidObjectId task_id = true → (∀ d ∈ tasks, (d._id == task_id) = false) →
      update_task_status task_id status tasks = (.notFound, tasks)) ∧
    (isValidObjectId task_id = true →
      ∀ l1 d l2, tasks = l1 ++ d :: l2 → d._id = task_id →
        (∀ e ∈ l1, (e._id == task_id) = false) →
        update_task_status task_id status tasks =
          (.ok, l1 ++ { d with status := some status } :: l2)) := by
  refine ⟨?_, ?_, ?_⟩
  · intro h
    simp [update_task_status, h]
  · intro hv hnone
    have hupd := updateFirst_of_forall_false
      (p := fun d => d._id == task_id)
      (f := fun d => { d with status := some status }) (l := tasks) hnone
    simp [update_task_status, hv, hupd]
  · intro hv l1 d l2 hdec hid hl1
    have hupd := @updateFirst_first_match
      (fun x => x._id == task_id)
      (fun x => { x with status := some status })
      l1 d l2 hl1 (by simp [hid])
    rw [hdec]
    simp [update_task_status, hv, hupd]

/-- C6 witness: the three outcomes at concrete inputs — malformed id,
well-formed absent id, and a successful single-status overwrite. -/
theorem update_task_status_spec_witness :
    update_task_status "zz" "done" [taskA] = (.invalidId, [taskA]) ∧
    update_task_status "bbbbbbbbbbbbbbbbbbbbbbbb" "done" [taskA] =
      (.notFound, [taskA]) ∧
    update_task_status "aaaaaaaaaaaaaaaaaaaaaaaa" "done" [taskA] =
      (.ok, [] ++ { taskA with status := some "done" } :: []) :=
  ⟨(update_task_status_spec "zz" "done" [taskA]).1 (by decide),
   (update_task_status_spec "bbbbbbbbbbbbbbbbbbbbbbbb" "done" [taskA]).2.1
     (by decide) (by decide),
   (update_task_status_spec "aaaaaaaaaaaaaaaaaaaaaaaa" "done" [taskA]).2.2
     (by decide) [] taskA [] rfl rfl (by simp)⟩

/-- C7 (refutation of the claim on the code): update_task_status accepts an
arbitrary status string — the endpoint's status payload is not checked
against the Task schema's enum — so a stored task can be left with a
status outside the four enum values. -/
theorem update_task_status_escapes_enum :
    update_task_status "aaaaaaaaaaaaaaaaaaaaaaaa" "bogus" [taskA] =
      (.ok, [{ taskA with status := some "bogus" }]) ∧
    statusEnum.contains "bogus" = false := by decide

/-- A message submitted with sender "ai" (not "user"). -/
def msgFromAI : MessagePayload :=
  { sender := "ai", text := "ping", user_email := some "u@x",
    topic := some "general" }

/-- C8 counterexample: create_message triggers the composer for every
sender, not exactly when the sender is user — a message submitted with
sender "ai" on an empty store still yields two stored messages, the second
being the synthesized reply. -/
theorem create_message_replies_to_nonuser_sender :
    (msgFromAI.sender == "user") = false ∧
    (create_message msgFromAI { tasks := [], messages := [] }).messages.length = 2 ∧
    (create_message msgFromAI { tasks := [], messages := [] }).messages.map
      Msg.sender = ["ai", "ai"] := by decide

/-- C8 amended: create_message stores the submitted message and always
triggers the ReplyComposer regardless of sender; every submitted message
causes exactly one additional stored message with sender ai, the same
user_email, and the same topic with "general" substituted when the topic
is empty.  The task collection is untouched. -/
theorem create_message_always_replies (p : MessagePayload) (s : Store) :
    (create_message p s).tasks = s.tasks ∧
    (create_message p s).messages =
      s.messages ++
        [{ sender := p.sender, text := p.text, user_email := p.user_email,
           topic := p.topic },
         { sender := "ai", text := composeReplyText s.tasks,
           user_email := p.user_email,
           topic := some (topicOrGeneral p.topic) }] := by
  refine ⟨rfl, ?_⟩
  simp [create_message]

/-- C9: with at least three tasks the composed ai reply consists of the
fixed introductory sentence, exactly three bullet lines — one per
top-ranked task in descending score order, each showing title, score, and
domain with "general" substituted when the domain is unset — and the fixed
closing sentence; with no tasks it equals the fixed fallback sentence; and
the composed text is exactly what create_message stores as the final ai
message. -/
theorem compose_reply_top3 (p : MessagePayload) (s : Store) :
    (3 ≤ s.tasks.length →
      ∃ t1 t2 t3,
        (sortedDesc score_task s.tasks).take 3 = [t1, t2, t3] ∧
        t1 ∈ s.tasks ∧ t2 ∈ s.tasks ∧ t3 ∈ s.tasks ∧
        score_task t2 ≤ score_task t1 ∧ score_task t3 ≤ score_task t2 ∧
        composeReplyText s.tasks =
          replyIntro ++
            (bulletLine t1 ++ "\n" ++ (bulletLine t2 ++ "\n" ++ bulletLine t3)) ++
            "\n\n" ++ replyClosing) ∧
    (s.tasks = [] → composeReplyText s.tasks = replyFallback) ∧
    (∀ t : Doc, bulletLine t =
      "- " ++ pyShowOptStr t.title ++ " (score " ++ toString (score_task t) ++
        ") — domain: " ++ t.domain.getD "general") ∧
    (create_message p s).messages.getLast? =
      some { sender := "ai", text := composeReplyText s.tasks,
             user_email := p.user_email,
             topic := some (topicOrGeneral p.topic) } := by
  refine ⟨?_, ?_, fun t => rfl, ?_⟩
  · intro hlen
    have hlen2 : 3 ≤ (sortedDesc score_task s.tasks).length := by
      rw [length_sortedDesc]; exact hlen
    obtain ⟨t1, t2, t3, rest, hL⟩ :
        ∃ t1 t2 t3 rest,
          sortedDesc score_task s.tasks = t1 :: t2 :: t3 :: rest := by
      cases hL : sortedDesc score_task s.tasks with
      | nil => rw [hL] at hlen2; simp at hlen2
      | cons a as =>
        cases has : as with
        | nil => rw [hL, has] at hlen2; simp at hlen2
        | cons b bs =>
          cases hbs : bs with
          | nil => rw [hL, has, hbs] at hlen2; simp at hlen2
          | cons c cs => exact ⟨a, b, c, cs, rfl⟩
    have htake : (sortedDesc score_task s.tasks).take 3 = [t1, t2, t3] := by
      rw [hL]; rfl
    have hpw := @pairwise_sortedDesc Doc score_task s.tasks
    rw [hL] at hpw
    rw [List.pairwise_cons] at hpw
    obtain ⟨h1, hpw2⟩ := hpw
    rw [List.pairwise_cons] at hpw2
    obtain ⟨h2, _⟩ := hpw2
    have hmem : ∀ t, t ∈ sortedDesc score_task s.tasks → t ∈ s.tasks :=
      fun t ht => mem_sortedDesc.1 ht
    refine ⟨t1, t2, t3, htake,
      hmem t1 (by rw [hL]; simp), hmem t2 (by rw [hL]; simp),
      hmem t3 (by rw [hL]; simp),
      h1 t2 (List.mem_cons_self t2 _),
      h2 t3 (List.mem_cons_self t3 _), ?_⟩
    unfold composeReplyText
    rw [htake]
    simp [joinLines]
  · intro h
    unfold composeReplyText
    rw [h]
    rfl
  · show ((s.messages ++ [_]) ++ [_]).getLast? = _
    rw [List.getLast?_append_cons]
    rfl

/-- C9 witness: the two reply shapes at concrete stores — a store with
three tasks yields the three-bullet template, and an empty store yields
the fallback sentence. -/
theorem compose_reply_top3_witness :
    (∃ t1 t2 t3,
      (sortedDesc score_task
        ({ tasks := [taskA, taskB, taskC], messages := [] } : Store).tasks).take 3 =
        [t1, t2, t3] ∧
      t1 ∈ ({ tasks := [taskA, taskB, taskC], messages := [] } : Store).tasks ∧
      t2 ∈ ({ tasks := [taskA, taskB, taskC], messages := [] } : Store).tasks ∧
      t3 ∈ ({ tasks := [taskA, taskB, taskC], messages := [] } : Store).tasks ∧
      score_task t2 ≤ score_task t1 ∧ score_task t3 ≤ score_task t2 ∧
      composeReplyText
          ({ tasks := [taskA, taskB, taskC], messages := [] } : Store).tasks =
        replyIntro ++
          (bulletLine t1 ++ "\n" ++ (bulletLine t2 ++ "\n" ++ bulletLine t3)) ++
          "\n\n" ++ replyClosing) ∧
    composeReplyText ({ tasks := [], messages := [] } : Store).tasks =
      replyFallback :=
  ⟨(compose_reply_top3
      { sender := "user", text := "hello", user_email := some "u@x",
        topic := some "growth" }
      { tasks := [taskA, taskB, taskC], messages := [] }).1 (by decide),
   (compose_reply_top3
      { sender := "user", text := "hello", user_email := some "u@x",
        topic := some "growth" }
      { tasks := [], messages := [] }).2.1 rfl⟩


end CoFounderOS
